import Mathlib

/-!
Shallow embedding of `article_processor/processor.py` (repository
`readability_lucy`) and proofs about its worker-pool lifecycle,
request-dispatch and fallback behaviour.

The Python module is asynchronous; its interactions with the outside world
(the Node.js subprocess, process spawning, the Python fallback extraction
libraries) are modelled by explicit environment records describing the
outcome of each external interaction, and the `asyncio` scheduling of
several concurrent `process_article` calls is modelled by a small-step
interleaving relation further below.  Machine state that Python mutates in
place (`self.process`, `self.restart_count`, the pool queue) is threaded
explicitly.
-/

set_option linter.unusedVariables false
set_option synthInstance.maxSize 2048

/-- JSON-like values stored in result records.  Only string values are ever
inspected by the code (the `mode` tags and the fallback title/content), so
all other JSON values are kept opaque. -/
inductive JVal
  | str (s : String)
  | other (n : Nat)
deriving DecidableEq, Repr

/-- A Python dict with string keys, as produced by `json.loads` of a JSON
object and by the dict literals in the source. -/
abbrev RDict := List (String × JVal)

/-- Python dict assignment `d[k] = v`: the key ends up bound exactly once. -/
def RDict.set (d : RDict) (k : String) (v : JVal) : RDict :=
  d.filter (fun p => p.1 != k) ++ [(k, v)]

/-- Python dict lookup `d[k]`, as an option. -/
def RDict.get? : RDict → String → Option JVal
  | [], _ => none
  | (k', v) :: d, k => if k' == k then some v else RDict.get? d k

/-- Number of entries of `d` carrying key `k`. -/
def RDict.countKey : RDict → String → Nat
  | [], _ => 0
  | (k', _) :: d, k => (if k' == k then 1 else 0) + RDict.countKey d k

/-- The exceptions raised inside `processor.py`:
`maxRestarts` is `Exception("Max restart attempts reached")` (line 55),
`spawnError` is a failure of `asyncio.create_subprocess_exec`,
`emptyResponse` is the `ValueError` of line 66, `jsonError` a
`json.loads` failure, `timeoutErr` the `Exception` of line 71, and
`fallbackExn` any exception raised by the fallback libraries
(`readabilipy` / `readability`). -/
inductive Err
  | maxRestarts
  | spawnError
  | emptyResponse
  | jsonError
  | timeoutErr
  | fallbackExn
deriving DecidableEq, Repr

/-- Outcome of one attempt to spawn the Node.js subprocess. -/
inductive SpawnOutcome
  | ok
  | fail
deriving DecidableEq, Repr

/-- Outcome of one `readline` on the Node process's stdout under
`asyncio.wait_for(..., timeout=30)`: a parsed JSON object, an empty line
(stream closed), unparseable bytes, or the 30-second timeout. -/
inductive ExchangeOutcome
  | success (d : RDict)
  | emptyLine
  | badJson
  | timeout
deriving DecidableEq, Repr

/-- Environment for one `NodeProcessWrapper.process_article` call: what the
operating system and the Node process do during that call. -/
structure ExchangeEnv where
  spawn : SpawnOutcome
  outcome : ExchangeOutcome
deriving DecidableEq, Repr

/-- Instrumentation record for one wrapper call: whether a spawn was
attempted and whether the request line was written to the process. -/
structure WTrace where
  spawnAttempted : Bool
  wrote : Bool
deriving DecidableEq, Repr

/-- State of one `NodeProcessWrapper` object.  `process = none` models
`self.process is None`; `process = some true` a live subprocess
(`returncode is None`); `process = some false` an exited subprocess.
The `asyncio.Lock` field is not modelled: exclusivity of wrapper use is
established at the pool level (see the interleaving machine below). -/
structure NodeProcessWrapper where
  node_script : String
  process : Option Bool
  restart_count : Nat
  max_restart_attempts : Nat
deriving DecidableEq, Repr

/-- `NodeProcessWrapper.__init__`. -/
def NodeProcessWrapper.make (script : String) : NodeProcessWrapper :=
  ⟨script, none, 0, 3⟩

/-- `start` (lines 19-27), in the case the spawn succeeds. -/
def NodeProcessWrapper.start (w : NodeProcessWrapper) : NodeProcessWrapper :=
  { w with process := some true }

/-- `stop` (lines 29-34). -/
def NodeProcessWrapper.stop (w : NodeProcessWrapper) : NodeProcessWrapper :=
  match w.process with
  | some _ => { w with process := none }
  | none => w

/-- Line 53: `self.process is None or self.process.returncode is not None`. -/
def NodeProcessWrapper.needsRestart (w : NodeProcessWrapper) : Bool :=
  match w.process with
  | some true => false
  | _ => true

/-- Lines 59-71 of `NodeProcessWrapper.process_article`: write the request,
read one line with a 30-second timeout, parse it, inject the mode tag. -/
def NodeProcessWrapper.exchangePart (w : NodeProcessWrapper) (env : ExchangeEnv)
    (tr : WTrace) : (Except Err RDict) × NodeProcessWrapper × WTrace :=
  match env.outcome with
  | .success d => (.ok (d.set "mode" (.str "nodejs readability/Readability.js")), w, tr)
  | .emptyLine => (.error .emptyResponse, w, tr)
  | .badJson => (.error .jsonError, w, tr)
  | .timeout => (.error .timeoutErr, w, tr)

/-- `NodeProcessWrapper.process_article` (lines 36-71).  If the process was
never started or has exited, the wrapper checks its restart budget,
increments `restart_count` and restarts it before writing the request. -/
def NodeProcessWrapper.process_article (w : NodeProcessWrapper) (env : ExchangeEnv)
    (html url : String) : (Except Err RDict) × NodeProcessWrapper × WTrace :=
  if w.needsRestart then
    if w.max_restart_attempts ≤ w.restart_count then
      (.error .maxRestarts, w, ⟨false, false⟩)
    else
      let w1 := { w with restart_count := w.restart_count + 1 }
      match env.spawn with
      | .fail => (.error .spawnError, w1, ⟨true, false⟩)
      | .ok => NodeProcessWrapper.exchangePart w1.start env ⟨true, true⟩
  else
    NodeProcessWrapper.exchangePart w env ⟨false, true⟩

/-- A wrapper in circulation, tagged with a ghost identity so that reuse of
a physical wrapper object can be talked about. -/
structure Handle where
  id : Nat
  w : NodeProcessWrapper
deriving DecidableEq, Repr

/-- State of a `NodeProcessPool` object.  `queue` is `self.pool`
(an `asyncio.Queue`, FIFO); `next` is a ghost counter supplying fresh
identities to newly constructed wrappers. -/
structure NodeProcessPool where
  pool_size : Nat
  node_script : String
  queue : List Handle
  next : Nat
deriving DecidableEq, Repr

/-- Environment for one `NodeProcessPool.process_article` call: the fates
of the first exchange, of the replacement spawn, and of the retry
exchange. -/
structure PoolEnv where
  ex1 : ExchangeEnv
  spawn2 : SpawnOutcome
  ex2 : ExchangeEnv
deriving DecidableEq, Repr

/-- Whether an `Except` result is an error. -/
def isErr : Except Err RDict → Bool
  | .error _ => true
  | .ok _ => false

/-- Instrumentation record for one pool call: the id of the acquired
handle, the exchanges performed (handle id, failed?), the id of the
replacement handle if one was made, and the id returned to the queue. -/
structure CallTrace where
  acquiredId : Nat
  exchanges : List (Nat × Bool)
  replacementId : Option Nat
  enqueuedId : Nat
deriving DecidableEq, Repr

/-- `NodeProcessPool.process_article` (lines 88-105).  `none` models the
call suspending forever on `await self.pool.get()` with an empty queue.
On a failed first exchange the acquired wrapper is stopped (its state is
discarded), a fresh wrapper is constructed and started, and the request is
retried once on it; the `finally` clause enqueues whatever `wrapper`
currently denotes — the replacement, in every failure path. -/
def NodeProcessPool.process_article (p : NodeProcessPool) (env : PoolEnv)
    (html url : String) : Option ((Except Err RDict) × NodeProcessPool × CallTrace) :=
  match p.queue with
  | [] => none
  | h :: rest =>
    match NodeProcessWrapper.process_article h.w env.ex1 html url with
    | (.ok d, w1, _) =>
      some (.ok d, { p with queue := rest ++ [⟨h.id, w1⟩] },
            ⟨h.id, [(h.id, false)], none, h.id⟩)
    | (.error _, w1, _) =>
      match env.spawn2 with
      | .fail =>
        some (.error .spawnError,
              { p with queue := rest ++ [⟨p.next, NodeProcessWrapper.make p.node_script⟩],
                       next := p.next + 1 },
              ⟨h.id, [(h.id, true)], some p.next, p.next⟩)
      | .ok =>
        match NodeProcessWrapper.process_article (NodeProcessWrapper.make p.node_script).start
            env.ex2 html url with
        | (r2, w2, _) =>
          some (r2, { p with queue := rest ++ [⟨p.next, w2⟩], next := p.next + 1 },
                ⟨h.id, [(h.id, true), (p.next, isErr r2)], some p.next, p.next⟩)

/-- Loop body of `NodeProcessPool.initialize` (lines 81-86), with the
iteration index threaded so that the `spawn` oracle can make a specific
start fail.  Names ending like the Python method's name are avoided for
lexical reasons; this is the `initialize` method. -/
def NodeProcessPool.initAux (spawn : Nat → SpawnOutcome) :
    Nat → Nat → NodeProcessPool → (Except Err Unit) × NodeProcessPool
  | _, 0, p => (.ok (), p)
  | i, n + 1, p =>
    match spawn i with
    | .fail => (.error .spawnError, p)
    | .ok =>
      NodeProcessPool.initAux spawn (i + 1) n
        { p with queue := p.queue ++ [⟨p.next, (NodeProcessWrapper.make p.node_script).start⟩],
                 next := p.next + 1 }

/-- `NodeProcessPool.initialize`: start `pool_size` wrappers, enqueueing
each as soon as it has started; a spawn failure propagates. -/
def NodeProcessPool.initPool (spawn : Nat → SpawnOutcome) (p : NodeProcessPool) :
    (Except Err Unit) × NodeProcessPool :=
  NodeProcessPool.initAux spawn 0 p.pool_size p

/-- The `while not self.pool.empty()` loop of `cleanup` (lines 107-111):
stop each queued wrapper in FIFO order. -/
def stopAll : List Handle → List Handle
  | [] => []
  | h :: rest => ⟨h.id, h.w.stop⟩ :: stopAll rest

/-- `NodeProcessPool.cleanup`: returns the handles that were stopped and
the drained pool. -/
def NodeProcessPool.cleanup (p : NodeProcessPool) : List Handle × NodeProcessPool :=
  (stopAll p.queue, { p with queue := [] })

/-- Result of `await self.pool.get()`: the front handle, or suspension. -/
inductive AcquireRes
  | suspend
  | got (h : Handle) (rest : List Handle)
deriving DecidableEq, Repr

/-- `asyncio.Queue.get` on the pool: never raises; suspends when empty. -/
def NodeProcessPool.acquire (p : NodeProcessPool) : AcquireRes :=
  match p.queue with
  | [] => .suspend
  | h :: rest => .got h rest

/-- Outcome of `simple_json_from_html_string(html)`: a returned value
(`none` modelling Python `None`, `some d` a dict) or a raised exception. -/
inductive PrimaryOutcome
  | ret (a : Option RDict)
  | exn
deriving DecidableEq, Repr

/-- Outcome of `Document(html)` together with `doc.title()` and
`doc.summary()`: either the produced strings or a raised exception. -/
inductive SecondaryOutcome
  | ret (title summary : String)
  | exn
deriving DecidableEq, Repr

/-- Environment for one `process_backup` call. -/
structure FallbackEnv where
  primary : PrimaryOutcome
  secondary : SecondaryOutcome
deriving DecidableEq, Repr

/-- Truthiness of a `readability.Document` instance: the class defines
neither a boolean conversion nor a length, so `if doc:` (line 131) is
always true and the `raw_html` return of line 137 is unreachable. -/
def documentTruthy : Bool := true

/-- Lines 130-137 of `process_backup`: the `readability.Document` stage. -/
def secondaryStep (fb : FallbackEnv) (html : String) : Except Err RDict :=
  match fb.secondary with
  | .exn => .error .fallbackExn
  | .ret title summary =>
    if documentTruthy then
      .ok [("title", .str title), ("content", .str summary), ("mode", .str "fallback2")]
    else
      .ok [("content", .str html), ("mode", .str "raw_html")]

/-- `ArticleProcessor.process_backup` (lines 122-137).  Exceptions raised
by the fallback libraries propagate: nothing in the source catches them. -/
def ArticleProcessor.process_backup (fb : FallbackEnv) (html url : String) :
    Except Err RDict :=
  match fb.primary with
  | .exn => .error .fallbackExn
  | .ret none => secondaryStep fb html
  | .ret (some article) =>
    if article.isEmpty then secondaryStep fb html
    else .ok (article.set "mode" (.str "fallback1"))

/-- `ArticleProcessor.process_article` (lines 139-147): try the pool, and
on any exception from it run `process_backup`.  `none` models the call
suspending on an empty pool queue. -/
def ArticleProcessor.process_article (p : NodeProcessPool) (env : PoolEnv)
    (fb : FallbackEnv) (html url : String) :
    Option ((Except Err RDict) × NodeProcessPool) :=
  match NodeProcessPool.process_article p env html url with
  | none => none
  | some (.ok d, p', _) => some (.ok d, p')
  | some (.error _, p', _) => some (ArticleProcessor.process_backup fb html url, p')

/-- Run a sequence of pool calls one after the other (each call running to
completion before the next starts), collecting results and traces. -/
def runCalls : NodeProcessPool → List PoolEnv → String → String →
    NodeProcessPool × List (Option ((Except Err RDict) × CallTrace))
  | p, [], _, _ => (p, [])
  | p, e :: es, html, url =>
    match NodeProcessPool.process_article p e html url with
    | none => (p, [none])
    | some (r, p', tr) =>
      let (pf, rest) := runCalls p' es html url
      (pf, some (r, tr) :: rest)

/-!
## Interleaving machine

`asyncio` runs many `process()` calls concurrently as cooperatively
scheduled tasks.  The machine below gives each task the program of
`NodeProcessPool.process_article`; a step advances one task across one
suspension point (`pool.get`, a wrapper exchange, `stop`/`start` of the
replacement, `pool.put`).  The `failed` field is ghost instrumentation
recording the ids of handles on which an exchange has errored or timed
out.
-/

-- Decidable equality for result values, used to evaluate concrete runs.
deriving instance DecidableEq for Except

/-- Control point of one in-flight `process_article` task. -/
inductive TStatus
  | ready
  | holding1 (h : Handle)
  | replacing (h : Handle)
  | holding2 (h : Handle)
  | returning (h : Handle) (r : Except Err RDict)
  | finished (r : Except Err RDict)
deriving DecidableEq, Repr

/-- One task: its request, its environment and its control point. -/
structure PTask where
  env : PoolEnv
  html : String
  url : String
  status : TStatus
deriving DecidableEq, Repr

/-- Global state: the shared pool queue, the fresh-identity counter, the
tasks, and the ghost record of handle ids with a failed exchange. -/
structure Sys where
  script : String
  queue : List Handle
  next : Nat
  tasks : List PTask
  failed : List Nat
deriving DecidableEq, Repr

/-- Handle ids a task currently holds (checked out of the queue). -/
def heldOf : TStatus → List Nat
  | .holding1 h => [h.id]
  | .replacing h => [h.id]
  | .holding2 h => [h.id]
  | .returning h _ => [h.id]
  | _ => []

/-- Handle ids held across a task list. -/
def heldIds : List PTask → List Nat
  | [] => []
  | t :: ts => heldOf t.status ++ heldIds ts

/-- Ids of handles sitting idle in the queue. -/
def Sys.queueIds (s : Sys) : List Nat := s.queue.map (·.id)

/-- Every id in circulation: idle plus checked out. -/
def Sys.circIds (s : Sys) : List Nat := s.queueIds ++ heldIds s.tasks

/-- One scheduler step.  Each constructor advances the task `t` sitting
between `pre` and `post` across one suspension point of
`NodeProcessPool.process_article`. -/
inductive Step : Sys → Sys → Prop
  | acquire (sc : String) (h : Handle) (q : List Handle) (next : Nat)
      (pre post : List PTask) (t : PTask) (fl : List Nat) :
      t.status = .ready →
      Step ⟨sc, h :: q, next, pre ++ t :: post, fl⟩
        ⟨sc, q, next, pre ++ { t with status := .holding1 h } :: post, fl⟩
  | exch1ok (sc : String) (q : List Handle) (next : Nat)
      (pre post : List PTask) (t : PTask) (h : Handle) (fl : List Nat)
      (d : RDict) (w' : NodeProcessWrapper) (tr : WTrace) :
      t.status = .holding1 h →
      NodeProcessWrapper.process_article h.w t.env.ex1 t.html t.url = (.ok d, w', tr) →
      Step ⟨sc, q, next, pre ++ t :: post, fl⟩
        ⟨sc, q, next, pre ++ { t with status := .returning ⟨h.id, w'⟩ (.ok d) } :: post, fl⟩
  | exch1err (sc : String) (q : List Handle) (next : Nat)
      (pre post : List PTask) (t : PTask) (h : Handle) (fl : List Nat)
      (e : Err) (w' : NodeProcessWrapper) (tr : WTrace) :
      t.status = .holding1 h →
      NodeProcessWrapper.process_article h.w t.env.ex1 t.html t.url = (.error e, w', tr) →
      Step ⟨sc, q, next, pre ++ t :: post, fl⟩
        ⟨sc, q, next, pre ++ { t with status := .replacing ⟨h.id, w'⟩ } :: post, h.id :: fl⟩
  | replaceOk (sc : String) (q : List Handle) (next : Nat)
      (pre post : List PTask) (t : PTask) (h : Handle) (fl : List Nat) :
      t.status = .replacing h →
      t.env.spawn2 = .ok →
      Step ⟨sc, q, next, pre ++ t :: post, fl⟩
        ⟨sc, q, next + 1,
         pre ++ { t with status := .holding2 ⟨next, (NodeProcessWrapper.make sc).start⟩ } :: post,
         fl⟩
  | replaceFail (sc : String) (q : List Handle) (next : Nat)
      (pre post : List PTask) (t : PTask) (h : Handle) (fl : List Nat) :
      t.status = .replacing h →
      t.env.spawn2 = .fail →
      Step ⟨sc, q, next, pre ++ t :: post, fl⟩
        ⟨sc, q, next + 1,
         pre ++ { t with status := TStatus.returning ⟨next, NodeProcessWrapper.make sc⟩ (.error .spawnError) } :: post,
         fl⟩
  | exch2ok (sc : String) (q : List Handle) (next : Nat)
      (pre post : List PTask) (t : PTask) (h : Handle) (fl : List Nat)
      (d : RDict) (w' : NodeProcessWrapper) (tr : WTrace) :
      t.status = .holding2 h →
      NodeProcessWrapper.process_article h.w t.env.ex2 t.html t.url = (.ok d, w', tr) →
      Step ⟨sc, q, next, pre ++ t :: post, fl⟩
        ⟨sc, q, next, pre ++ { t with status := .returning ⟨h.id, w'⟩ (.ok d) } :: post, fl⟩
  | exch2err (sc : String) (q : List Handle) (next : Nat)
      (pre post : List PTask) (t : PTask) (h : Handle) (fl : List Nat)
      (e : Err) (w' : NodeProcessWrapper) (tr : WTrace) :
      t.status = .holding2 h →
      NodeProcessWrapper.process_article h.w t.env.ex2 t.html t.url = (.error e, w', tr) →
      Step ⟨sc, q, next, pre ++ t :: post, fl⟩
        ⟨sc, q, next, pre ++ { t with status := .returning ⟨h.id, w'⟩ (.error e) } :: post,
         h.id :: fl⟩
  | putback (sc : String) (q : List Handle) (next : Nat)
      (pre post : List PTask) (t : PTask) (h : Handle) (r : Except Err RDict) (fl : List Nat) :
      t.status = .returning h r →
      Step ⟨sc, q, next, pre ++ t :: post, fl⟩
        ⟨sc, q ++ [h], next, pre ++ { t with status := .finished r } :: post, fl⟩

/-- Reachability along scheduler steps. -/
def Reaches : Sys → Sys → Prop := Relation.ReflTransGen Step

/-- A handle as produced by pool initialization: fresh wrapper, started. -/
def startedHandle (sc : String) (i : Nat) : Handle :=
  ⟨i, (NodeProcessWrapper.make sc).start⟩

/-- System right after `initialize` on a pool of `k` processes, with the
given requests pending as tasks. -/
def initSys (sc : String) (k : Nat) (reqs : List (PoolEnv × String × String)) : Sys :=
  ⟨sc, (List.range k).map (startedHandle sc), k,
   reqs.map (fun r => ⟨r.1, r.2.1, r.2.2, .ready⟩), []⟩

/-- The pool invariant: no handle id is in circulation twice, and every id
in circulation is below the fresh counter. -/
structure SysInv (s : Sys) : Prop where
  nodup : s.circIds.Nodup
  bound : ∀ i ∈ s.circIds, i < s.next

/-!
## Result-record lemmas
-/

lemma RDict.countKey_append (d1 d2 : RDict) (k : String) :
    RDict.countKey (d1 ++ d2) k = RDict.countKey d1 k + RDict.countKey d2 k := by
  induction d1 with
  | nil => simp [RDict.countKey]
  | cons hd tl ih => simp [RDict.countKey, ih]; omega

lemma RDict.countKey_filter_ne (d : RDict) (k : String) :
    RDict.countKey (d.filter (fun p => p.1 != k)) k = 0 := by
  induction d with
  | nil => rfl
  | cons hd tl ih =>
    rw [List.filter_cons]
    by_cases h : hd.1 = k
    · simp [h, ih]
    · simp [RDict.countKey, h, ih]

lemma RDict.countKey_set (d : RDict) (k : String) (v : JVal) :
    RDict.countKey (RDict.set d k v) k = 1 := by
  simp [RDict.set, RDict.countKey_append, RDict.countKey_filter_ne, RDict.countKey]

lemma RDict.get?_filter_ne (d : RDict) (k : String) (tl : RDict) :
    RDict.get? (d.filter (fun p => p.1 != k) ++ tl) k = RDict.get? tl k := by
  induction d with
  | nil => rfl
  | cons hd rest ih =>
    rw [List.filter_cons]
    by_cases h : hd.1 = k
    · simp [h, ih]
    · simp [RDict.get?, h, ih]

lemma RDict.get?_set (d : RDict) (k : String) (v : JVal) :
    RDict.get? (RDict.set d k v) k = some v := by
  simp [RDict.set, RDict.get?_filter_ne, RDict.get?]

/-- The four mode tags actually produced by the code: the external tag and
the three local tags of `process_backup`. -/
def modeTags : List JVal :=
  [.str "nodejs readability/Readability.js", .str "fallback1",
   .str "fallback2", .str "raw_html"]

/-- A result record carrying the `mode` key exactly once, with one of the
four defined tags as its value. -/
def hasOneMode (d : RDict) : Prop :=
  RDict.countKey d "mode" = 1 ∧ ∃ v ∈ modeTags, RDict.get? d "mode" = some v

/-- Mode discipline of a completed `process()` call: if it returned a
result record, that record satisfies `hasOneMode`.  Suspension or a
propagated exception produce no record and are not constrained. -/
def modeOk : Option ((Except Err RDict) × NodeProcessPool) → Prop
  | some (.ok d, _) => hasOneMode d
  | _ => True

lemma exchangePart_ok_mode {w : NodeProcessWrapper} {env : ExchangeEnv} {tr : WTrace}
    {d : RDict} {w' : NodeProcessWrapper} {tr' : WTrace}
    (h : NodeProcessWrapper.exchangePart w env tr = (.ok d, w', tr')) :
    RDict.countKey d "mode" = 1 ∧
    RDict.get? d "mode" = some (.str "nodejs readability/Readability.js") := by
  unfold NodeProcessWrapper.exchangePart at h
  cases henv : env.outcome <;> rw [henv] at h <;> simp at h
  obtain ⟨h1, -, -⟩ := h
  subst h1
  exact ⟨RDict.countKey_set _ _ _, RDict.get?_set _ _ _⟩

lemma wrapper_ok_mode {w : NodeProcessWrapper} {env : ExchangeEnv} {html url : String}
    {d : RDict} {w' : NodeProcessWrapper} {tr : WTrace}
    (h : NodeProcessWrapper.process_article w env html url = (.ok d, w', tr)) :
    RDict.countKey d "mode" = 1 ∧
    RDict.get? d "mode" = some (.str "nodejs readability/Readability.js") := by
  unfold NodeProcessWrapper.process_article at h
  by_cases hr : w.needsRestart <;> simp [hr] at h
  · by_cases hb : w.max_restart_attempts ≤ w.restart_count <;> simp [hb] at h
    · cases hs : env.spawn <;> rw [hs] at h
      · exact exchangePart_ok_mode h
      · simp at h
  · exact exchangePart_ok_mode h

lemma pool_ok_mode {p : NodeProcessPool} {env : PoolEnv} {html url : String}
    {d : RDict} {p' : NodeProcessPool} {tr : CallTrace}
    (h : NodeProcessPool.process_article p env html url = some (.ok d, p', tr)) :
    RDict.countKey d "mode" = 1 ∧
    RDict.get? d "mode" = some (.str "nodejs readability/Readability.js") := by
  obtain ⟨ps, ns, q, nx⟩ := p
  cases q with
  | nil => simp [NodeProcessPool.process_article] at h
  | cons h0 rest =>
    simp only [NodeProcessPool.process_article] at h
    rcases h1 : NodeProcessWrapper.process_article h0.w env.ex1 html url with ⟨r1, w1, t1⟩
    rw [h1] at h
    cases r1 with
    | ok d1 =>
      simp at h
      obtain ⟨hd, -, -⟩ := h
      subst hd
      exact wrapper_ok_mode h1
    | error e1 =>
      cases hs : env.spawn2 <;> rw [hs] at h
      · rcases h2 : NodeProcessWrapper.process_article
            (NodeProcessWrapper.make ns).start env.ex2 html url with ⟨r2, w2, t2⟩
        rw [h2] at h
        cases r2 with
        | ok d2 =>
          simp at h
          obtain ⟨hd, -, -⟩ := h
          subst hd
          exact wrapper_ok_mode h2
        | error e2 => simp at h
      · simp at h

lemma backup_ok_mode {fb : FallbackEnv} {html url : String} {d : RDict}
    (h : ArticleProcessor.process_backup fb html url = .ok d) :
    RDict.countKey d "mode" = 1 ∧
    (RDict.get? d "mode" = some (.str "fallback1") ∨
     RDict.get? d "mode" = some (.str "fallback2") ∨
     RDict.get? d "mode" = some (.str "raw_html")) := by
  have hsec : ∀ d', secondaryStep fb html = .ok d' →
      RDict.countKey d' "mode" = 1 ∧
      (RDict.get? d' "mode" = some (.str "fallback1") ∨
       RDict.get? d' "mode" = some (.str "fallback2") ∨
       RDict.get? d' "mode" = some (.str "raw_html")) := by
    intro d' h'
    unfold secondaryStep at h'
    cases hs : fb.secondary <;> rw [hs] at h'
    · simp [documentTruthy] at h'
      subst h'
      refine ⟨by simp [RDict.countKey], .inr (.inl ?_)⟩
      simp [RDict.get?]
    · simp at h'
  unfold ArticleProcessor.process_backup at h
  cases hp : fb.primary <;> rw [hp] at h
  case ret a =>
    cases a with
    | none => exact hsec d h
    | some article =>
      by_cases he : article.isEmpty <;> simp [he] at h
      · exact hsec d h
      · subst h
        exact ⟨RDict.countKey_set _ _ _, .inl (RDict.get?_set _ _ _)⟩
  case exn => simp at h

/-- C2: for every request, a result record returned by
`ArticleProcessor.process_article` contains the `mode` key exactly once,
and its value is one of the four defined tags (the external tag
`nodejs readability/Readability.js`, the primary-fallback tag `fallback1`,
the secondary-fallback tag `fallback2`, or the raw tag `raw_html`). -/
theorem c2_mode_taxonomy (p : NodeProcessPool) (env : PoolEnv) (fb : FallbackEnv)
    (html url : String) :
    modeOk (ArticleProcessor.process_article p env fb html url) := by
  unfold ArticleProcessor.process_article
  cases hpa : NodeProcessPool.process_article p env html url with
  | none => trivial
  | some res =>
    rcases res with ⟨r, p', tr⟩
    cases r with
    | ok d =>
      have := pool_ok_mode hpa
      exact ⟨this.1, ⟨_, by simp [modeTags], this.2⟩⟩
    | error e =>
      show modeOk (some (ArticleProcessor.process_backup fb html url, p'))
      cases hb : ArticleProcessor.process_backup fb html url with
      | error e' => trivial
      | ok d =>
        have := backup_ok_mode hb
        refine ⟨this.1, ?_⟩
        rcases this.2 with h' | h' | h'
        · exact ⟨_, by simp [modeTags], h'⟩
        · exact ⟨_, by simp [modeTags], h'⟩
        · exact ⟨_, by simp [modeTags], h'⟩

/-!
## Concrete fixtures
-/

/-- The default worker command argument of the source. -/
def procScript : String := "ProcessArticlePersistent.js"

/-- A pool of one freshly started worker, as `initialize` leaves a pool of
size 1. -/
def poolC : NodeProcessPool :=
  ⟨1, procScript, [⟨0, (NodeProcessWrapper.make procScript).start⟩], 1⟩

/-- Environment in which both the first and the retry exchange time out. -/
def envTT : PoolEnv := ⟨⟨.ok, .timeout⟩, .ok, ⟨.ok, .timeout⟩⟩

/-- Environment: the first exchange times out and spawning the replacement
fails. -/
def envTF : PoolEnv := ⟨⟨.ok, .timeout⟩, .fail, ⟨.ok, .timeout⟩⟩

/-- Environment: the first exchange times out, the retry succeeds with an
empty JSON object. -/
def envTS : PoolEnv := ⟨⟨.ok, .timeout⟩, .ok, ⟨.ok, .success []⟩⟩

/-- Fallback environment in which `simple_json_from_html_string` raises. -/
def fbExn : FallbackEnv := ⟨.exn, .exn⟩

/-- Fallback environment: primary returns `None`, secondary succeeds. -/
def fbSec : FallbackEnv := ⟨.ret none, .ret "T" "S"⟩

/-- Fallback environment: primary returns a non-empty dict. -/
def fbPrim : FallbackEnv := ⟨.ret (some [("content", .other 0)]), .ret "T" "S"⟩

/-!
## Helper lemmas about the pool call
-/

/-- An alive wrapper is returned unchanged by `process_article`. -/
lemma alive_unchanged (w : NodeProcessWrapper) (env : ExchangeEnv) (html url : String)
    (hw : w.needsRestart = false) :
    (NodeProcessWrapper.process_article w env html url).2.1 = w := by
  unfold NodeProcessWrapper.process_article
  simp only [hw, Bool.false_eq_true, if_false]
  unfold NodeProcessWrapper.exchangePart
  cases env.outcome <;> simp

/-- With a non-empty queue, a pool call always produces a value. -/
lemma pool_returns (env : PoolEnv) (html url : String) {p : NodeProcessPool}
    (hq : p.queue ≠ []) :
    ∃ r p' tr, NodeProcessPool.process_article p env html url = some (r, p', tr) := by
  obtain ⟨ps, ns, q, nx⟩ := p
  cases q with
  | nil => simp at hq
  | cons h0 rest =>
    simp only [NodeProcessPool.process_article]
    rcases h1 : NodeProcessWrapper.process_article h0.w env.ex1 html url with ⟨r1, w1, t1⟩
    cases r1 with
    | ok d1 => exact ⟨_, _, _, rfl⟩
    | error e1 =>
      dsimp only
      cases env.spawn2
      · exact ⟨_, _, _, rfl⟩
      · exact ⟨_, _, _, rfl⟩

/-- When the fallback libraries do not raise, `process_backup` returns a
record. -/
lemma backup_total {fb : FallbackEnv} (html url : String)
    (hp : fb.primary ≠ .exn) (hs : fb.secondary ≠ .exn) :
    ∃ d, ArticleProcessor.process_backup fb html url = .ok d := by
  have hsec : ∃ d, secondaryStep fb html = .ok d := by
    unfold secondaryStep
    cases h : fb.secondary
    · exact ⟨_, rfl⟩
    · exact absurd h hs
  unfold ArticleProcessor.process_backup
  cases h : fb.primary
  case ret a =>
    cases a with
    | none => exact hsec
    | some article =>
      by_cases he : article.isEmpty
      · simpa [he] using hsec
      · dsimp only
        rw [if_neg he]
        exact ⟨_, rfl⟩
  case exn => exact absurd h hp

/-- On a failed first exchange with a successful replacement spawn, the
pool retries exactly once on the fresh started wrapper and enqueues that
wrapper under the fresh identity. -/
lemma pool_replace_ok {p : NodeProcessPool} (env : PoolEnv) (html url : String)
    {h : Handle} {rest : List Handle}
    (hq : p.queue = h :: rest)
    (hfail : isErr (NodeProcessWrapper.process_article h.w env.ex1 html url).1 = true)
    (hsp : env.spawn2 = .ok) :
    ∃ r2, NodeProcessPool.process_article p env html url =
      some (r2,
        { p with queue := rest ++ [⟨p.next, (NodeProcessWrapper.make p.node_script).start⟩],
                 next := p.next + 1 },
        ⟨h.id, [(h.id, true), (p.next, isErr r2)], some p.next, p.next⟩) ∧
      r2 = (NodeProcessWrapper.process_article
              (NodeProcessWrapper.make p.node_script).start env.ex2 html url).1 := by
  obtain ⟨ps, ns, q, nx⟩ := p
  simp only at hq ⊢
  subst hq
  simp only [NodeProcessPool.process_article]
  rcases h1 : NodeProcessWrapper.process_article h.w env.ex1 html url with ⟨r1, w1, t1⟩
  rw [h1] at hfail
  cases r1 with
  | ok d1 => simp [isErr] at hfail
  | error e1 =>
    dsimp only
    rw [hsp]
    refine ⟨(NodeProcessWrapper.process_article
        (NodeProcessWrapper.make ns).start env.ex2 html url).1, ?_, rfl⟩
    rw [alive_unchanged (NodeProcessWrapper.make ns).start env.ex2 html url rfl]

/-- On a failed first exchange with a failed replacement spawn, the spawn
error propagates without any retry, and the unstarted replacement is
enqueued under the fresh identity. -/
lemma pool_replace_fail {p : NodeProcessPool} (env : PoolEnv) (html url : String)
    {h : Handle} {rest : List Handle}
    (hq : p.queue = h :: rest)
    (hfail : isErr (NodeProcessWrapper.process_article h.w env.ex1 html url).1 = true)
    (hsp : env.spawn2 = .fail) :
    NodeProcessPool.process_article p env html url =
      some (.error .spawnError,
        { p with queue := rest ++ [⟨p.next, NodeProcessWrapper.make p.node_script⟩],
                 next := p.next + 1 },
        ⟨h.id, [(h.id, true)], some p.next, p.next⟩) := by
  obtain ⟨ps, ns, q, nx⟩ := p
  simp only at hq ⊢
  subst hq
  simp only [NodeProcessPool.process_article]
  rcases h1 : NodeProcessWrapper.process_article h.w env.ex1 html url with ⟨r1, w1, t1⟩
  rw [h1] at hfail
  cases r1 with
  | ok d1 => simp [isErr] at hfail
  | error e1 =>
    dsimp only
    rw [hsp]

/-!
## Claims about the service layer and pool lifecycle
-/

/-- C1 counterexample: with both pool exchanges timing out and the primary
fallback library raising, `ArticleProcessor.process_article` propagates the
fallback exception to its caller instead of returning a result record:
nothing in the source catches exceptions raised inside `process_backup`. -/
theorem c1_counterexample :
    ArticleProcessor.process_article poolC envTT fbExn "<p>x</p>" "https://e" =
      some (.error .fallbackExn,
            ⟨1, procScript, [⟨1, (NodeProcessWrapper.make procScript).start⟩], 2⟩) := by
  decide

/-- C1 (amended): `process_article` converts any exception escaping the
pool path into a fallback attempt, and returns a result record whenever
the fallback libraries themselves do not raise (and the pool queue is
non-empty, so the call does not suspend on `pool.get`). -/
theorem c1_amended (p : NodeProcessPool) (env : PoolEnv) (fb : FallbackEnv)
    (html url : String) (hq : p.queue ≠ [])
    (hp : fb.primary ≠ .exn) (hs : fb.secondary ≠ .exn) :
    ∃ d p', ArticleProcessor.process_article p env fb html url = some (.ok d, p') := by
  obtain ⟨r, p', tr, hpool⟩ := pool_returns env html url hq
  unfold ArticleProcessor.process_article
  rw [hpool]
  cases r with
  | ok d => exact ⟨d, p', rfl⟩
  | error e =>
    obtain ⟨d, hd⟩ := backup_total html url hp hs
    exact ⟨d, p', by rw [hd]⟩

/-- C1 witness: a concrete run returning a record through the fallback. -/
theorem c1_witness :
    ∃ d p', ArticleProcessor.process_article poolC envTT fbSec "<p>x</p>" "https://e" =
      some (.ok d, p') :=
  c1_amended poolC envTT fbSec "<p>x</p>" "https://e" (by decide) (by decide) (by decide)

/-- C4 counterexample: the first exchange of the request times out, yet the
pool's single retry succeeds and the caller receives a result tagged with
the external mode — not a fallback or raw tag. -/
theorem c4_counterexample :
    envTS.ex1.outcome = .timeout ∧
    NodeProcessPool.process_article poolC envTS "h" "u" =
      some (.ok [("mode", .str "nodejs readability/Readability.js")],
            ⟨1, procScript, [⟨1, (NodeProcessWrapper.make procScript).start⟩], 2⟩,
            ⟨0, [(0, true), (1, false)], some 1, 1⟩) ∧
    ArticleProcessor.process_article poolC envTS fbExn "h" "u" =
      some (.ok [("mode", .str "nodejs readability/Readability.js")],
            ⟨1, procScript, [⟨1, (NodeProcessWrapper.make procScript).start⟩], 2⟩) := by
  decide

/-- C4 (amended): when the whole pool path fails (first exchange and the
retry path both fail), the service answers from the fallback chain, and
any record the fallback chain returns carries a fallback or raw tag —
never the external tag. -/
theorem c4_amended (p : NodeProcessPool) (env : PoolEnv) (fb : FallbackEnv)
    (html url : String) (e : Err) (p' : NodeProcessPool) (tr : CallTrace)
    (hpool : NodeProcessPool.process_article p env html url = some (.error e, p', tr)) :
    ArticleProcessor.process_article p env fb html url =
      some (ArticleProcessor.process_backup fb html url, p') ∧
    ∀ d, ArticleProcessor.process_backup fb html url = .ok d →
      RDict.get? d "mode" ≠ some (.str "nodejs readability/Readability.js") ∧
      (RDict.get? d "mode" = some (.str "fallback1") ∨
       RDict.get? d "mode" = some (.str "fallback2") ∨
       RDict.get? d "mode" = some (.str "raw_html")) := by
  constructor
  · unfold ArticleProcessor.process_article
    rw [hpool]
  · intro d hd
    have hm := (backup_ok_mode hd).2
    refine ⟨?_, hm⟩
    rcases hm with h' | h' | h' <;> rw [h'] <;> simp

/-- C4 witness: a concrete failing pool path answered by the fallback. -/
theorem c4_witness :
    ArticleProcessor.process_article poolC envTF fbSec "h" "u" =
      some (ArticleProcessor.process_backup fbSec "h" "u",
            ⟨1, procScript, [⟨1, NodeProcessWrapper.make procScript⟩], 2⟩) ∧
    ∀ d, ArticleProcessor.process_backup fbSec "h" "u" = .ok d →
      RDict.get? d "mode" ≠ some (.str "nodejs readability/Readability.js") ∧
      (RDict.get? d "mode" = some (.str "fallback1") ∨
       RDict.get? d "mode" = some (.str "fallback2") ∨
       RDict.get? d "mode" = some (.str "raw_html")) :=
  c4_amended poolC envTF fbSec "h" "u" .spawnError
    ⟨1, procScript, [⟨1, NodeProcessWrapper.make procScript⟩], 2⟩
    ⟨0, [(0, true)], some 1, 1⟩ (by decide)

/-- C6 counterexample: a slot of a size-1 pool fails and is replaced four
consecutive times — one more than `max_restart_attempts = 3` — and the
fourth failure still spawns a replacement (`replacementId` is set, the
result is the timeout exception, no degraded-pool error exists); every
replacement starts with `restart_count = 0`, so no budget persists with
the slot. -/
theorem c6_counterexample :
    runCalls poolC [envTT, envTT, envTT, envTT] "h" "u" =
      (⟨1, procScript, [⟨4, (NodeProcessWrapper.make procScript).start⟩], 5⟩,
       [some (.error .timeoutErr, ⟨0, [(0, true), (1, true)], some 1, 1⟩),
        some (.error .timeoutErr, ⟨1, [(1, true), (2, true)], some 2, 2⟩),
        some (.error .timeoutErr, ⟨2, [(2, true), (3, true)], some 3, 3⟩),
        some (.error .timeoutErr, ⟨3, [(3, true), (4, true)], some 4, 4⟩)]) ∧
    ((NodeProcessWrapper.make procScript).start).restart_count = 0 ∧
    ((NodeProcessWrapper.make procScript).start).max_restart_attempts = 3 := by
  decide

/-- C6 (amended): the restart budget lives in each wrapper, not in the pool
slot: a wrapper whose own process is down raises `Max restart attempts
reached` exactly when its own counter has reached its budget, while the
pool's replacement path always creates a brand-new started wrapper whose
counter is `0`, so pool-level replacement is not budget-limited. -/
theorem c6_amended :
    (∀ (w : NodeProcessWrapper) (env : ExchangeEnv) (html url : String),
      w.needsRestart = true → w.max_restart_attempts ≤ w.restart_count →
      NodeProcessWrapper.process_article w env html url = (.error .maxRestarts, w, ⟨false, false⟩)) ∧
    (∀ (p : NodeProcessPool) (env : PoolEnv) (html url : String) (h : Handle)
        (rest : List Handle),
      p.queue = h :: rest →
      isErr (NodeProcessWrapper.process_article h.w env.ex1 html url).1 = true →
      env.spawn2 = .ok →
      ∃ r2, NodeProcessPool.process_article p env html url =
        some (r2,
          { p with queue := rest ++ [⟨p.next, (NodeProcessWrapper.make p.node_script).start⟩],
                   next := p.next + 1 },
          ⟨h.id, [(h.id, true), (p.next, isErr r2)], some p.next, p.next⟩) ∧
        ((NodeProcessWrapper.make p.node_script).start).restart_count = 0) := by
  constructor
  · intro w env html url hr hb
    unfold NodeProcessWrapper.process_article
    rw [hr]
    simp [hb]
  · intro p env html url h rest hq hfail hsp
    obtain ⟨r2, heq, -⟩ := pool_replace_ok env html url hq hfail hsp
    exact ⟨r2, heq, rfl⟩

/-- A wrapper whose process is down and whose budget is exhausted. -/
def spentW : NodeProcessWrapper := ⟨procScript, none, 3, 3⟩

/-- C6 witness: the wrapper-level budget raising at a concrete wrapper. -/
theorem c6_witness :
    NodeProcessWrapper.process_article spentW ⟨.ok, .timeout⟩ "h" "u" =
      (.error .maxRestarts, spentW, ⟨false, false⟩) :=
  c6_amended.1 spentW ⟨.ok, .timeout⟩ "h" "u" (by decide) (by decide)

lemma initAux_all_ok (spawn : Nat → SpawnOutcome) (hall : ∀ i, spawn i = .ok) :
    ∀ n i p, (NodeProcessPool.initAux spawn i n p).1 = .ok () ∧
      (NodeProcessPool.initAux spawn i n p).2.queue.length = p.queue.length + n := by
  intro n
  induction n with
  | zero => intro i p; exact ⟨rfl, rfl⟩
  | succ m ih =>
    intro i p
    simp only [NodeProcessPool.initAux, hall i]
    obtain ⟨h1, h2⟩ := ih (i + 1)
      { p with queue := p.queue ++ [⟨p.next, (NodeProcessWrapper.make p.node_script).start⟩],
               next := p.next + 1 }
    refine ⟨h1, ?_⟩
    rw [h2]
    simp
    omega

lemma initAux_fail (spawn : Nat → SpawnOutcome) :
    ∀ k n i p, k < n → spawn (i + k) = .fail → (∀ j, j < k → spawn (i + j) = .ok) →
      (NodeProcessPool.initAux spawn i n p).1 = .error .spawnError ∧
      (NodeProcessPool.initAux spawn i n p).2.queue.length = p.queue.length + k := by
  intro k
  induction k with
  | zero =>
    intro n i p hk hf _
    cases n with
    | zero => omega
    | succ m =>
      rw [Nat.add_zero] at hf
      simp [NodeProcessPool.initAux, hf]
  | succ kk ih =>
    intro n i p hk hf hok
    cases n with
    | zero => omega
    | succ m =>
      have h0 : spawn i = .ok := by
        have := hok 0 (Nat.succ_pos kk)
        simpa using this
      simp only [NodeProcessPool.initAux, h0]
      have hf' : spawn (i + 1 + kk) = .fail := by
        rw [show i + 1 + kk = i + (kk + 1) by omega]
        exact hf
      have hok' : ∀ j, j < kk → spawn (i + 1 + j) = .ok := by
        intro j hj
        rw [show i + 1 + j = i + (j + 1) by omega]
        exact hok (j + 1) (by omega)
      obtain ⟨h1, h2⟩ := ih m (i + 1)
        { p with queue := p.queue ++ [⟨p.next, (NodeProcessWrapper.make p.node_script).start⟩],
                 next := p.next + 1 } (by omega) hf' hok'
      refine ⟨h1, ?_⟩
      rw [h2]
      simp
      omega

/-- An empty pool configured for two workers. -/
def emptyPool2 : NodeProcessPool := ⟨2, procScript, [], 0⟩

/-- C7 counterexample: during initialization of a size-2 pool the second
spawn fails; the spawn error propagates, but the first handle remains in
the pool's queue — initialization is not atomic, the pool is not left
uninitialized. -/
theorem c7_counterexample :
    NodeProcessPool.initPool (fun i => if i = 0 then .ok else .fail) emptyPool2 =
      (.error .spawnError,
       ⟨2, procScript, [⟨0, (NodeProcessWrapper.make procScript).start⟩], 1⟩) := by
  decide

/-- C7 (amended): initialization starts exactly `pool_size` handles when
every spawn succeeds; if the spawn at position `k` fails after `k`
successes, the spawn error propagates and the `k` already-started handles
remain in the queue. -/
theorem c7_amended (spawn : Nat → SpawnOutcome) (p : NodeProcessPool) :
    ((∀ i, spawn i = .ok) →
      (NodeProcessPool.initPool spawn p).1 = .ok () ∧
      (NodeProcessPool.initPool spawn p).2.queue.length = p.queue.length + p.pool_size) ∧
    (∀ k, k < p.pool_size → spawn k = .fail → (∀ j, j < k → spawn j = .ok) →
      (NodeProcessPool.initPool spawn p).1 = .error .spawnError ∧
      (NodeProcessPool.initPool spawn p).2.queue.length = p.queue.length + k) := by
  constructor
  · intro hall
    exact initAux_all_ok spawn hall p.pool_size 0 p
  · intro k hk hf hok
    exact initAux_fail spawn k p.pool_size 0 p hk (by simpa using hf)
      (fun j hj => by simpa using hok j hj)

/-- C7 witness: both branches of the amended claim at concrete inputs. -/
theorem c7_witness :
    ((NodeProcessPool.initPool (fun _ => .ok) ⟨3, procScript, [], 0⟩).1 = .ok () ∧
     (NodeProcessPool.initPool (fun _ => .ok)
        ⟨3, procScript, [], 0⟩).2.queue.length = 0 + 3) ∧
    ((NodeProcessPool.initPool (fun i => if i = 0 then .ok else .fail) emptyPool2).1 =
        .error .spawnError ∧
     (NodeProcessPool.initPool (fun i => if i = 0 then .ok else .fail)
        emptyPool2).2.queue.length = 0 + 1) :=
  ⟨(c7_amended (fun _ => .ok) ⟨3, procScript, [], 0⟩).1 (fun i => rfl),
   (c7_amended (fun i => if i = 0 then .ok else .fail) emptyPool2).2 1 (by decide) (by decide)
     (fun j hj => by
       have hj0 : j = 0 := by omega
       subst hj0
       rfl)⟩

lemma stopAll_stopped : ∀ l : List Handle, ∀ h ∈ stopAll l, h.w.process = none := by
  intro l
  induction l with
  | nil => simp [stopAll]
  | cons hd tl ih =>
    intro h hh
    simp only [stopAll, List.mem_cons] at hh
    rcases hh with rfl | hh
    · show (hd.w.stop).process = none
      unfold NodeProcessWrapper.stop
      cases hw : hd.w.process <;> simp [hw]
    · exact ih h hh

/-- A pool state observed while its only handle is checked out by an
in-flight call: the queue is empty and the pool tracks nothing else, so
the handle in use is invisible to `cleanup`. -/
def inFlightPool : NodeProcessPool := ⟨1, procScript, [], 1⟩

/-- C8 counterexample: running `cleanup` while the pool's only handle is
checked out stops nothing (the pool keeps no registry of in-flight
handles), and a subsequent `acquire` suspends — it does not fail with any
pool-closed error, which does not exist in the code. -/
theorem c8_counterexample :
    (NodeProcessPool.cleanup inFlightPool).1 = [] ∧
    NodeProcessPool.acquire (NodeProcessPool.cleanup inFlightPool).2 = .suspend ∧
    NodeProcessPool.acquire inFlightPool = .suspend := by
  decide

/-- C8 (amended): `cleanup` stops exactly the currently idle handles,
leaving the queue empty; every stopped handle has its process terminated;
and an `acquire` after cleanup suspends rather than failing. -/
theorem c8_amended (p : NodeProcessPool) :
    (NodeProcessPool.cleanup p).1 = stopAll p.queue ∧
    (∀ h ∈ (NodeProcessPool.cleanup p).1, h.w.process = none) ∧
    (NodeProcessPool.cleanup p).2.queue = [] ∧
    NodeProcessPool.acquire (NodeProcessPool.cleanup p).2 = .suspend := by
  refine ⟨rfl, ?_, rfl, rfl⟩
  exact fun h hh => stopAll_stopped p.queue h hh

/-- C8 witness: a concrete stopped handle after cleanup of `poolC`. -/
theorem c8_witness :
    (⟨0, ((NodeProcessWrapper.make procScript).start).stop⟩ : Handle).w.process = none :=
  (c8_amended poolC).2.1 ⟨0, ((NodeProcessWrapper.make procScript).start).stop⟩ (by decide)

/-- C9 counterexample: the first exchange fails and spawning the
replacement also fails; the pool performs no retry exchange (the trace
records exactly one exchange), yet the exception reaches the service layer
and the service falls back — refuting that a retry always precedes the
fallback. -/
theorem c9_counterexample :
    NodeProcessPool.process_article poolC envTF "h" "u" =
      some (.error .spawnError,
            ⟨1, procScript, [⟨1, NodeProcessWrapper.make procScript⟩], 2⟩,
            ⟨0, [(0, true)], some 1, 1⟩) ∧
    ArticleProcessor.process_article poolC envTF fbPrim "h" "u" =
      some (.ok [("content", .other 0), ("mode", .str "fallback1")],
            ⟨1, procScript, [⟨1, NodeProcessWrapper.make procScript⟩], 2⟩) := by
  decide

/-- C9 (amended): when the first exchange on the acquired handle fails,
the pool retries the request exactly once on the freshly started
replacement if the replacement spawns, and performs no retry if the spawn
fails (the spawn error propagating instead); in both cases the handle
returned to the idle queue is the replacement carrying the fresh
identity, never the failed handle. -/
theorem c9_amended (p : NodeProcessPool) (env : PoolEnv) (html url : String)
    (h : Handle) (rest : List Handle)
    (hq : p.queue = h :: rest)
    (hwf : ∀ hh ∈ p.queue, hh.id < p.next)
    (hfail : isErr (NodeProcessWrapper.process_article h.w env.ex1 html url).1 = true) :
    (env.spawn2 = .ok →
      ∃ r2, NodeProcessPool.process_article p env html url =
        some (r2,
          { p with queue := rest ++ [⟨p.next, (NodeProcessWrapper.make p.node_script).start⟩],
                   next := p.next + 1 },
          ⟨h.id, [(h.id, true), (p.next, isErr r2)], some p.next, p.next⟩)) ∧
    (env.spawn2 = .fail →
      NodeProcessPool.process_article p env html url =
        some (.error .spawnError,
          { p with queue := rest ++ [⟨p.next, NodeProcessWrapper.make p.node_script⟩],
                   next := p.next + 1 },
          ⟨h.id, [(h.id, true)], some p.next, p.next⟩)) ∧
    h.id ≠ p.next := by
  refine ⟨?_, ?_, ?_⟩
  · intro hsp
    obtain ⟨r2, heq, -⟩ := pool_replace_ok env html url hq hfail hsp
    exact ⟨r2, heq⟩
  · intro hsp
    exact pool_replace_fail env html url hq hfail hsp
  · have := hwf h (by rw [hq]; exact List.mem_cons_self h rest)
    omega

/-- C9 witness: the amended claim at a concrete failing first exchange. -/
theorem c9_witness :
    (envTT.spawn2 = .ok →
      ∃ r2, NodeProcessPool.process_article poolC envTT "h" "u" =
        some (r2,
          { poolC with
              queue := [] ++ [⟨poolC.next, (NodeProcessWrapper.make poolC.node_script).start⟩],
              next := poolC.next + 1 },
          ⟨(⟨0, (NodeProcessWrapper.make procScript).start⟩ : Handle).id,
           [((⟨0, (NodeProcessWrapper.make procScript).start⟩ : Handle).id, true),
            (poolC.next, isErr r2)], some poolC.next, poolC.next⟩)) ∧
    (envTT.spawn2 = .fail →
      NodeProcessPool.process_article poolC envTT "h" "u" =
        some (.error .spawnError,
          { poolC with
              queue := [] ++ [⟨poolC.next, NodeProcessWrapper.make poolC.node_script⟩],
              next := poolC.next + 1 },
          ⟨(⟨0, (NodeProcessWrapper.make procScript).start⟩ : Handle).id,
           [((⟨0, (NodeProcessWrapper.make procScript).start⟩ : Handle).id, true)],
           some poolC.next, poolC.next⟩)) ∧
    (⟨0, (NodeProcessWrapper.make procScript).start⟩ : Handle).id ≠ poolC.next :=
  c9_amended poolC envTT "h" "u" ⟨0, (NodeProcessWrapper.make procScript).start⟩ []
    (by decide) (fun hh hm => by
      have : hh = ⟨0, (NodeProcessWrapper.make procScript).start⟩ := by
        simpa [poolC] using hm
      subst this
      decide) (by decide)

/-- C10: a Worker Handle lazily restarts its own worker: an exchange on a
handle whose process was never started or has exited increments the
handle's own restart counter and spawns before writing (the request line
is only written when not restarting or after a successful spawn); the
`Max restart attempts reached` error is raised, without attempting a
spawn, exactly when the counter has already reached the handle's
`max_restart_attempts`; a handle whose process is alive is returned
unchanged and never spawns. -/
theorem c10_lazy_restart (w : NodeProcessWrapper) (env : ExchangeEnv) (html url : String) :
    (w.needsRestart = true → w.restart_count < w.max_restart_attempts →
      (NodeProcessWrapper.process_article w env html url).2.1.restart_count =
        w.restart_count + 1 ∧
      (NodeProcessWrapper.process_article w env html url).2.2.spawnAttempted = true) ∧
    (w.needsRestart = true → w.max_restart_attempts ≤ w.restart_count →
      NodeProcessWrapper.process_article w env html url =
        (.error .maxRestarts, w, ⟨false, false⟩)) ∧
    (w.needsRestart = false →
      (NodeProcessWrapper.process_article w env html url).2.1 = w ∧
      (NodeProcessWrapper.process_article w env html url).2.2.spawnAttempted = false) ∧
    ((NodeProcessWrapper.process_article w env html url).1 = .error .maxRestarts ↔
      w.needsRestart = true ∧ w.max_restart_attempts ≤ w.restart_count) ∧
    (w.needsRestart = true →
      (NodeProcessWrapper.process_article w env html url).2.2.wrote = true →
      env.spawn = .ok) := by
  unfold NodeProcessWrapper.process_article NodeProcessWrapper.exchangePart
  cases hr : w.needsRestart <;>
    by_cases hb : w.max_restart_attempts ≤ w.restart_count <;>
      cases hs : env.spawn <;> cases ho : env.outcome <;>
        simp [hr, hb, hs, ho, NodeProcessWrapper.start]

/-- A wrapper whose process is down but whose budget is not exhausted. -/
def deadW : NodeProcessWrapper := ⟨procScript, none, 0, 3⟩

/-- C10 witness: the lazy restart increments the counter of a concrete
dead wrapper and attempts the spawn. -/
theorem c10_witness :
    (NodeProcessWrapper.process_article deadW ⟨.ok, .timeout⟩ "h" "u").2.1.restart_count =
      0 + 1 ∧
    (NodeProcessWrapper.process_article deadW ⟨.ok, .timeout⟩ "h" "u").2.2.spawnAttempted =
      true :=
  (c10_lazy_restart deadW ⟨.ok, .timeout⟩ "h" "u").1 (by decide) (by decide)

/-!
## Pool invariant of the interleaving machine
-/

lemma heldIds_append (a b : List PTask) : heldIds (a ++ b) = heldIds a ++ heldIds b := by
  induction a with
  | nil => rfl
  | cons t ts ih => simp [heldIds, ih]

lemma perm_shift (x : Nat) (q a b : List Nat) :
    List.Perm (q ++ (a ++ x :: b)) (x :: (q ++ (a ++ b))) := by
  refine List.perm_iff_count.mpr fun y => ?_
  simp [List.count_append, List.count_cons]
  omega

lemma perm_mid (x : Nat) (q a b : List Nat) :
    List.Perm (q ++ (x :: (a ++ b))) (q ++ (a ++ x :: b)) := by
  refine List.perm_iff_count.mpr fun y => ?_
  simp [List.count_append, List.count_cons]
  omega

lemma nodup_swap_fresh {q a b : List Nat} {x y : Nat}
    (hnd : (q ++ (a ++ x :: b)).Nodup) (hy : y ∉ q ++ (a ++ x :: b)) :
    (q ++ (a ++ y :: b)).Nodup := by
  rw [List.nodup_iff_count_le_one] at hnd ⊢
  intro z
  have h1 := hnd z
  have h2 : List.count y (q ++ (a ++ x :: b)) = 0 := List.count_eq_zero.mpr hy
  by_cases hz : z = y
  · subst hz
    simp [List.count_append, List.count_cons] at h1 h2 ⊢
    omega
  · simp [List.count_append, List.count_cons, hz] at h1 h2 ⊢
    omega

lemma bound_swap_fresh {q a b : List Nat} {x y n : Nat}
    (hb : ∀ i ∈ q ++ (a ++ x :: b), i < n) (hy : y < n + 1) :
    ∀ i ∈ q ++ (a ++ y :: b), i < n + 1 := by
  intro i hi
  simp only [List.mem_append, List.mem_cons] at hi
  rcases hi with hq | hA | rfl | hB
  · exact Nat.lt_succ_of_lt (hb i (by simp [hq]))
  · exact Nat.lt_succ_of_lt (hb i (by simp [hA]))
  · exact hy
  · exact Nat.lt_succ_of_lt (hb i (by simp [hB]))

theorem sysInv_step {s s' : Sys} (inv : SysInv s) (st : Step s s') : SysInv s' := by
  obtain ⟨hnd, hbd⟩ := inv
  cases st with
  | acquire sc h q next pre post t fl hst =>
    have e1 : Sys.circIds ⟨sc, h :: q, next, pre ++ t :: post, fl⟩ =
        h.id :: (List.map (·.id) q ++ (heldIds pre ++ heldIds post)) := by
      simp [Sys.circIds, Sys.queueIds, heldIds_append, heldIds, heldOf, hst]
    have e2 : Sys.circIds ⟨sc, q, next, pre ++ { t with status := .holding1 h } :: post, fl⟩ =
        List.map (·.id) q ++ (heldIds pre ++ (h.id :: heldIds post)) := by
      simp [Sys.circIds, Sys.queueIds, heldIds_append, heldIds, heldOf]
    rw [e1] at hnd hbd
    refine ⟨?_, ?_⟩
    · rw [e2]
      exact (perm_shift h.id (List.map (·.id) q) (heldIds pre) (heldIds post)).symm.nodup hnd
    · intro i hi
      rw [e2] at hi
      exact hbd i ((perm_shift h.id (List.map (·.id) q) (heldIds pre)
        (heldIds post)).mem_iff.mp hi)
  | exch1ok sc q next pre post t h fl d w' tr hst hx =>
    have e1 : Sys.circIds ⟨sc, q, next, pre ++ t :: post, fl⟩ =
        List.map (·.id) q ++ (heldIds pre ++ (h.id :: heldIds post)) := by
      simp [Sys.circIds, Sys.queueIds, heldIds_append, heldIds, heldOf, hst]
    have e2 : Sys.circIds
        ⟨sc, q, next, pre ++ { t with status := .returning ⟨h.id, w'⟩ (.ok d) } :: post, fl⟩ =
        List.map (·.id) q ++ (heldIds pre ++ (h.id :: heldIds post)) := by
      simp [Sys.circIds, Sys.queueIds, heldIds_append, heldIds, heldOf]
    rw [e1] at hnd hbd
    exact ⟨by rw [e2]; exact hnd, by intro i hi; rw [e2] at hi; exact hbd i hi⟩
  | exch1err sc q next pre post t h fl e w' tr hst hx =>
    have e1 : Sys.circIds ⟨sc, q, next, pre ++ t :: post, fl⟩ =
        List.map (·.id) q ++ (heldIds pre ++ (h.id :: heldIds post)) := by
      simp [Sys.circIds, Sys.queueIds, heldIds_append, heldIds, heldOf, hst]
    have e2 : Sys.circIds
        ⟨sc, q, next, pre ++ { t with status := .replacing ⟨h.id, w'⟩ } :: post, h.id :: fl⟩ =
        List.map (·.id) q ++ (heldIds pre ++ (h.id :: heldIds post)) := by
      simp [Sys.circIds, Sys.queueIds, heldIds_append, heldIds, heldOf]
    rw [e1] at hnd hbd
    exact ⟨by rw [e2]; exact hnd, by intro i hi; rw [e2] at hi; exact hbd i hi⟩
  | replaceOk sc q next pre post t h fl hst hsp =>
    have e1 : Sys.circIds ⟨sc, q, next, pre ++ t :: post, fl⟩ =
        List.map (·.id) q ++ (heldIds pre ++ (h.id :: heldIds post)) := by
      simp [Sys.circIds, Sys.queueIds, heldIds_append, heldIds, heldOf, hst]
    have e2 : Sys.circIds ⟨sc, q, next + 1,
        pre ++ { t with status := TStatus.holding2 ⟨next, (NodeProcessWrapper.make sc).start⟩ } :: post, fl⟩ =
        List.map (·.id) q ++ (heldIds pre ++ (next :: heldIds post)) := by
      simp [Sys.circIds, Sys.queueIds, heldIds_append, heldIds, heldOf]
    rw [e1] at hnd hbd
    have hfresh : next ∉ List.map (·.id) q ++ (heldIds pre ++ (h.id :: heldIds post)) :=
      fun hm => absurd (hbd next hm) (lt_irrefl next)
    refine ⟨?_, ?_⟩
    · rw [e2]
      exact nodup_swap_fresh hnd hfresh
    · intro i hi
      rw [e2] at hi
      exact bound_swap_fresh hbd (Nat.lt_succ_self next) i hi
  | replaceFail sc q next pre post t h fl hst hsp =>
    have e1 : Sys.circIds ⟨sc, q, next, pre ++ t :: post, fl⟩ =
        List.map (·.id) q ++ (heldIds pre ++ (h.id :: heldIds post)) := by
      simp [Sys.circIds, Sys.queueIds, heldIds_append, heldIds, heldOf, hst]
    have e2 : Sys.circIds ⟨sc, q, next + 1, pre ++ { t with status := TStatus.returning ⟨next, NodeProcessWrapper.make sc⟩ (.error .spawnError) } :: post, fl⟩ =
        List.map (·.id) q ++ (heldIds pre ++ (next :: heldIds post)) := by
      simp [Sys.circIds, Sys.queueIds, heldIds_append, heldIds, heldOf]
    rw [e1] at hnd hbd
    have hfresh : next ∉ List.map (·.id) q ++ (heldIds pre ++ (h.id :: heldIds post)) :=
      fun hm => absurd (hbd next hm) (lt_irrefl next)
    refine ⟨?_, ?_⟩
    · rw [e2]
      exact nodup_swap_fresh hnd hfresh
    · intro i hi
      rw [e2] at hi
      exact bound_swap_fresh hbd (Nat.lt_succ_self next) i hi
  | exch2ok sc q next pre post t h fl d w' tr hst hx =>
    have e1 : Sys.circIds ⟨sc, q, next, pre ++ t :: post, fl⟩ =
        List.map (·.id) q ++ (heldIds pre ++ (h.id :: heldIds post)) := by
      simp [Sys.circIds, Sys.queueIds, heldIds_append, heldIds, heldOf, hst]
    have e2 : Sys.circIds
        ⟨sc, q, next, pre ++ { t with status := .returning ⟨h.id, w'⟩ (.ok d) } :: post, fl⟩ =
        List.map (·.id) q ++ (heldIds pre ++ (h.id :: heldIds post)) := by
      simp [Sys.circIds, Sys.queueIds, heldIds_append, heldIds, heldOf]
    rw [e1] at hnd hbd
    exact ⟨by rw [e2]; exact hnd, by intro i hi; rw [e2] at hi; exact hbd i hi⟩
  | exch2err sc q next pre post t h fl e w' tr hst hx =>
    have e1 : Sys.circIds ⟨sc, q, next, pre ++ t :: post, fl⟩ =
        List.map (·.id) q ++ (heldIds pre ++ (h.id :: heldIds post)) := by
      simp [Sys.circIds, Sys.queueIds, heldIds_append, heldIds, heldOf, hst]
    have e2 : Sys.circIds ⟨sc, q, next,
        pre ++ { t with status := .returning ⟨h.id, w'⟩ (.error e) } :: post, h.id :: fl⟩ =
        List.map (·.id) q ++ (heldIds pre ++ (h.id :: heldIds post)) := by
      simp [Sys.circIds, Sys.queueIds, heldIds_append, heldIds, heldOf]
    rw [e1] at hnd hbd
    exact ⟨by rw [e2]; exact hnd, by intro i hi; rw [e2] at hi; exact hbd i hi⟩
  | putback sc q next pre post t h r fl hst =>
    have e1 : Sys.circIds ⟨sc, q, next, pre ++ t :: post, fl⟩ =
        List.map (·.id) q ++ (heldIds pre ++ (h.id :: heldIds post)) := by
      simp [Sys.circIds, Sys.queueIds, heldIds_append, heldIds, heldOf, hst]
    have e2 : Sys.circIds
        ⟨sc, q ++ [h], next, pre ++ { t with status := .finished r } :: post, fl⟩ =
        List.map (·.id) q ++ (h.id :: (heldIds pre ++ heldIds post)) := by
      simp [Sys.circIds, Sys.queueIds, heldIds_append, heldIds, heldOf]
    rw [e1] at hnd hbd
    have hperm := perm_mid h.id (List.map (·.id) q) (heldIds pre) (heldIds post)
    refine ⟨?_, ?_⟩
    · rw [e2]
      exact hperm.symm.nodup hnd
    · intro i hi
      rw [e2] at hi
      exact hbd i (hperm.mem_iff.mp hi)

theorem sysInv_reachable {s0 s : Sys} (h0 : SysInv s0) (hr : Reaches s0 s) : SysInv s := by
  induction hr with
  | refl => exact h0
  | tail _ hstep ih => exact sysInv_step ih hstep

lemma heldIds_ready (reqs : List (PoolEnv × String × String)) :
    heldIds (reqs.map (fun r => (⟨r.1, r.2.1, r.2.2, .ready⟩ : PTask))) = [] := by
  induction reqs with
  | nil => rfl
  | cons r rs ih => simp [heldIds, heldOf, ih]

lemma circIds_init (sc : String) (k : Nat) (reqs : List (PoolEnv × String × String)) :
    Sys.circIds (initSys sc k reqs) = List.range k := by
  simp only [Sys.circIds, Sys.queueIds, initSys, heldIds_ready, List.append_nil, List.map_map]
  have hc : ((fun (x : Handle) => x.id) ∘ startedHandle sc) = id := by
    funext i
    rfl
  rw [hc, List.map_id]

lemma sysInv_init (sc : String) (k : Nat) (reqs : List (PoolEnv × String × String)) :
    SysInv (initSys sc k reqs) := by
  refine ⟨?_, ?_⟩
  · rw [circIds_init]
    exact List.nodup_range k
  · intro i hi
    rw [circIds_init] at hi
    exact List.mem_range.mp hi

lemma mem_heldIds_of_get? {ts : List PTask} {j : Nat} {t : PTask} {a : Nat}
    (hj : ts[j]? = some t) (ha : a ∈ heldOf t.status) : a ∈ heldIds ts := by
  induction ts generalizing j with
  | nil => simp at hj
  | cons hd tl ih =>
    cases j with
    | zero =>
      simp at hj
      subst hj
      simp only [heldIds, List.mem_append]
      exact .inl ha
    | succ m =>
      simp at hj
      simp only [heldIds, List.mem_append]
      exact .inr (ih hj)

lemma count_two_of_get? {ts : List PTask} {i j : Nat} {ti tj : PTask} {a : Nat}
    (hij : i < j) (hi : ts[i]? = some ti) (hj : ts[j]? = some tj)
    (hai : a ∈ heldOf ti.status) (haj : a ∈ heldOf tj.status) :
    2 ≤ (heldIds ts).count a := by
  induction ts generalizing i j with
  | nil => simp at hi
  | cons hd tl ih =>
    cases i with
    | zero =>
      simp at hi
      subst hi
      cases j with
      | zero => omega
      | succ m =>
        simp at hj
        have h2 : a ∈ heldIds tl := mem_heldIds_of_get? hj haj
        have h1 : 0 < List.count a (heldOf hd.status) := List.count_pos_iff.mpr hai
        have h2' : 0 < List.count a (heldIds tl) := List.count_pos_iff.mpr h2
        simp only [heldIds, List.count_append]
        omega
    | succ m =>
      cases j with
      | zero => omega
      | succ mj =>
        simp at hi hj
        have hrec := ih (by omega) hi hj
        simp only [heldIds, List.count_append]
        omega

/-- C5: exclusivity of checkout — in any state reachable from an
initialized pool under any interleaving of concurrent `process()` calls,
two distinct tasks never hold the same handle at the same time: once
`pool.get` hands a handle to one task, no other task can obtain that
handle until it has been put back. -/
theorem c5_exclusive_checkout (sc : String) (k : Nat)
    (reqs : List (PoolEnv × String × String)) (s : Sys)
    (hr : Reaches (initSys sc k reqs) s)
    (i j : Nat) (ti tj : PTask) (hij : i ≠ j)
    (hi : s.tasks[i]? = some ti) (hj : s.tasks[j]? = some tj)
    (a b : Nat) (ha : a ∈ heldOf ti.status) (hb : b ∈ heldOf tj.status) :
    a ≠ b := by
  have inv := sysInv_reachable (sysInv_init sc k reqs) hr
  intro hab
  subst hab
  have hcnt : 2 ≤ (heldIds s.tasks).count a := by
    rcases Nat.lt_or_ge i j with hlt | hge
    · exact count_two_of_get? hlt hi hj ha hb
    · have hlt : j < i := by omega
      exact count_two_of_get? hlt hj hi hb ha
  have hnd := inv.nodup
  rw [List.nodup_iff_count_le_one] at hnd
  have hone := hnd a
  simp only [Sys.circIds, List.count_append] at hone
  omega

/-- A request whose exchanges all succeed. -/
def reqOk : PoolEnv × String × String :=
  (⟨⟨.ok, .success []⟩, .ok, ⟨.ok, .success []⟩⟩, "h", "u")

/-- A pending task for `reqOk`. -/
def tReady : PTask := ⟨reqOk.1, "h", "u", .ready⟩

/-- The `reqOk` task holding the handle with identity `i`. -/
def tHold (i : Nat) : PTask := ⟨reqOk.1, "h", "u", .holding1 (startedHandle "s" i)⟩

/-- Both tasks of a two-task system holding their own handle. -/
def sTwo : Sys := ⟨"s", [], 2, [tHold 0, tHold 1], []⟩

lemma reaches_sTwo : Reaches (initSys "s" 2 [reqOk, reqOk]) sTwo :=
  Relation.ReflTransGen.head
    (Step.acquire "s" (startedHandle "s" 0) [startedHandle "s" 1] 2 [] [tReady] tReady [] rfl)
    (Relation.ReflTransGen.head
      (Step.acquire "s" (startedHandle "s" 1) [] 2 [tHold 0] [] tReady [] rfl)
      Relation.ReflTransGen.refl)

/-- C5 witness: in the concrete reachable state `sTwo`, the two concurrent
tasks hold handles 0 and 1, and the theorem yields their distinctness. -/
theorem c5_witness : (0 : Nat) ≠ 1 :=
  c5_exclusive_checkout "s" 2 [reqOk, reqOk] sTwo reaches_sTwo 0 1 (tHold 0) (tHold 1)
    (by decide) rfl rfl 0 1 (by decide) (by decide)

/-- A request whose exchanges all time out. -/
def reqT : PoolEnv × String × String := (envTT, "h", "u")

/-- A pending task for `reqT`. -/
def tT : PTask := ⟨envTT, "h", "u", .ready⟩

/-- A freshly started wrapper for the default worker command. -/
def startedW : NodeProcessWrapper := (NodeProcessWrapper.make procScript).start

/-- State after the first task's call completed: its first exchange timed
out (handle 0 was discarded), the retry on replacement handle 1 also timed
out, and the `finally` clause nevertheless enqueued handle 1. -/
def c3Mid : Sys :=
  ⟨procScript, [⟨1, startedW⟩], 2,
   [⟨envTT, "h", "u", .finished (.error .timeoutErr)⟩, tT], [1, 0]⟩

/-- State after the second task acquired the timed-out handle 1. -/
def c3End : Sys :=
  ⟨procScript, [], 2,
   [⟨envTT, "h", "u", .finished (.error .timeoutErr)⟩,
    ⟨envTT, "h", "u", .holding1 ⟨1, startedW⟩⟩], [1, 0]⟩

/-- C3: the code violates the discard-on-failure requirement.  In the
reachable state `c3Mid`, handle 1 has suffered a timed-out exchange
(`1 ∈ failed`) and yet sits in the idle queue: when the pool-level retry
itself fails, the `finally` clause of `NodeProcessPool.process_article`
returns the just-failed replacement to the idle structure.  The trace then
continues: a second `process()` call acquires handle 1 and will use it for
its next exchange. -/
theorem c3_bug_trace :
    Reaches (initSys procScript 1 [reqT, reqT]) c3Mid ∧
    1 ∈ c3Mid.failed ∧
    1 ∈ Sys.queueIds c3Mid ∧
    Reaches c3Mid c3End ∧
    c3End.tasks[1]? = some ⟨envTT, "h", "u", .holding1 ⟨1, startedW⟩⟩ ∧
    1 ∈ c3End.failed := by
  refine ⟨?_, by decide, by decide, ?_, rfl, by decide⟩
  · exact Relation.ReflTransGen.head
      (Step.acquire procScript (startedHandle procScript 0) [] 1 [] [tT] tT [] rfl)
      (Relation.ReflTransGen.head
        (Step.exch1err procScript [] 1 [] [tT]
          { tT with status := .holding1 (startedHandle procScript 0) }
          (startedHandle procScript 0) [] .timeoutErr startedW ⟨false, true⟩ rfl rfl)
        (Relation.ReflTransGen.head
          (Step.replaceOk procScript [] 1 [] [tT]
            { tT with status := .replacing ⟨0, startedW⟩ } ⟨0, startedW⟩ [0] rfl rfl)
          (Relation.ReflTransGen.head
            (Step.exch2err procScript [] 2 [] [tT]
              { tT with status := .holding2 ⟨1, startedW⟩ } ⟨1, startedW⟩ [0]
              .timeoutErr startedW ⟨false, true⟩ rfl rfl)
            (Relation.ReflTransGen.head
              (Step.putback procScript [] 2 [] [tT]
                { tT with status := .returning ⟨1, startedW⟩ (.error .timeoutErr) }
                ⟨1, startedW⟩ (.error .timeoutErr) [1, 0] rfl)
              Relation.ReflTransGen.refl))))
  · exact Relation.ReflTransGen.head
      (Step.acquire procScript ⟨1, startedW⟩ [] 2
        [⟨envTT, "h", "u", .finished (.error .timeoutErr)⟩] [] tT [1, 0] rfl)
      Relation.ReflTransGen.refl
